import Mathlib

/-!
Verification of two CGAL cores against their natural-language specification:
Core A, almost-degenerate triangle repair
(`Polygon_mesh_processing/remove_degeneracies.h`), and Core B, MST-based
normal orientation (`Point_set_processing_3/mst_orient_normals.h`).

The half-edge mesh abstraction, the geometric predicates
(`is_needle_triangle_face`, `is_cap_triangle_face`, `edge_length`), the
Euler operators, the KD-tree search and `boost::prim_minimum_spanning_tree`
are external collaborators of the repository; they are modelled from the
spec (sections 3, 4 and 6) as marked below.  Everything else is translated
directly from the two headers.  Real numbers of the source are represented
by rationals; machine `double` rounding is not modelled.
-/

namespace CGALSpec

/-- Modelled from the spec (section 4.1): the classifier inputs of one
triangular face.  `hs i` is the handle of halfedge `i`, `len i` its edge
length, and `cosv i` the cosine of the interior angle at the vertex
opposite halfedge `i`. -/
structure FaceGeom where
  hs : Fin 3 → Nat
  len : Fin 3 → ℚ
  cosv : Fin 3 → ℚ

/-- Index of the shortest edge, first index kept on ties (the scan keeps
the current minimum unless a strictly smaller length appears). -/
def argminIdx (g : FaceGeom) : Fin 3 :=
  if g.len 1 < g.len 0 then
    (if g.len 2 < g.len 1 then 2 else 1)
  else
    (if g.len 2 < g.len 0 then 2 else 0)

/-- Index of the longest edge, first index kept on ties. -/
def argmaxIdx (g : FaceGeom) : Fin 3 :=
  if g.len 0 < g.len 1 then
    (if g.len 1 < g.len 2 then 2 else 1)
  else
    (if g.len 0 < g.len 2 then 2 else 0)

/-- Modelled from the spec (sections 3 and 4.1): `is_needle_triangle_face`.
A face is a needle if `longest_edge / shortest_edge > rho`; the offending
halfedge is the shortest edge. -/
def is_needle_triangle_face (g : FaceGeom) (threshold : ℚ) : Option Nat :=
  if threshold < g.len (argmaxIdx g) / g.len (argminIdx g) then
    some (g.hs (argminIdx g))
  else
    none

/-- Modelled from the spec (sections 3 and 4.1): `is_cap_triangle_face`.
A face is a cap if some interior angle cosine is below the threshold; the
offending halfedge is the edge opposite that vertex. -/
def is_cap_triangle_face (g : FaceGeom) (threshold : ℚ) : Option Nat :=
  if g.cosv 0 < threshold then some (g.hs 0)
  else if g.cosv 1 < threshold then some (g.hs 1)
  else if g.cosv 2 < threshold then some (g.hs 2)
  else none

/-- Modelled from the spec (section 6, geometric kernel): length of the
edge of a given halfedge of the face. -/
def edge_length (g : FaceGeom) (h : Nat) : ℚ :=
  if h = g.hs 0 then g.len 0
  else if h = g.hs 1 then g.len 1
  else g.len 2

/-- Modelled from the spec (section 3): `cos(160 / 180 * pi)`, the external
libm value, represented by the rational approximation the spec itself
quotes (about -0.9397). -/
def cap_threshold_value : ℚ := -9397 / 10000

/-- The named-parameter options of `repair_almost_degenerate_faces` as the
spec describes them (section 6): three recognized threshold fields with
their documented defaults. -/
structure NamedParams where
  needle_ratio : ℚ := 4
  cap_angle_cosine : ℚ := cap_threshold_value
  collapse_length_max : ℚ := 1/5

/-- `internal::is_badly_shaped` (remove_degeneracies.h, lines 61-90): the
needle test runs first with the hardcoded threshold 4; a detected needle
is reported only when its edge length is at most the hardcoded collapse
threshold 0.2, and otherwise the face is reported as neither needle nor
cap; the cap test (hardcoded threshold cos 160 degrees) runs only when the
needle test fails.  The named parameters `np` are accepted but, as in the
source (`// @todo parameters`, lines 70-73), never consulted for the
thresholds. -/
def is_badly_shaped (g : FaceGeom) (np : NamedParams) : Option Nat × Option Nat :=
  let needle_threshold : ℚ := 4
  let cap_threshold : ℚ := cap_threshold_value
  let collapse_threshold : ℚ := 1/5
  match is_needle_triangle_face g needle_threshold with
  | some res =>
      if edge_length g res ≤ collapse_threshold then (some res, none)
      else (none, none)
  | none =>
      match is_cap_triangle_face g cap_threshold with
      | some res => (none, some res)
      | none => (none, none)

/-- Ordered insert into a sorted duplicate-free list of handles: the model
of `std::set::insert`. -/
def oinsert (x : Nat) : List Nat → List Nat
  | [] => [x]
  | y :: ys => if x < y then x :: y :: ys else if x = y then y :: ys else y :: oinsert x ys

/-- Erase one handle unless the flag is set: the `if (!is_border(h))`
guarded `erase` calls of the collapse loop. -/
def eraseUnless (b : Bool) (x : Nat) (l : List Nat) : List Nat :=
  if b then l else l.erase x

/-- Modelled from the spec (sections 3 and 6): the external half-edge mesh
abstraction.  Handles for faces, halfedges and edges are opaque naturals;
`faceGeom` exposes the classifier inputs of a face (geometric kernel);
`collapse_edge`, `flip_edge`, `remove_face` and `linkCondition` are the
Euler operators and link-condition query of the mesh collaborator;
`flipTargetEdgeExists` is the query for a halfedge between the two apex
vertices of the faces incident to a halfedge (the flip-validity test). -/
structure MeshOps (M : Type) where
  faces : M → List Nat
  halfedgeOfEdge : M → Nat → Nat
  edgeOfHalfedge : M → Nat → Nat
  opp : M → Nat → Nat
  prev : M → Nat → Nat
  next : M → Nat → Nat
  faceOfHalfedge : M → Nat → Nat
  isBorderHalfedge : M → Nat → Bool
  isBorderEdge : M → Nat → Bool
  faceGeom : M → Nat → FaceGeom
  linkCondition : M → Nat → Bool
  collapse_edge : M → Nat → M
  flip_edge : M → Nat → M
  remove_face : M → Nat → M
  flipTargetEdgeExists : M → Nat → Bool

/-- State of the needle-treatment loop: mesh, the flip working set
`edges_to_flip`, the two next-generation sets and `something_was_done`. -/
structure CState (M : Type) where
  mesh : M
  etf : List Nat
  nec : List Nat
  nef : List Nat
  flag : Bool

/-- State of the cap-treatment loop: mesh, the two next-generation sets
and `something_was_done`. -/
structure FState (M : Type) where
  mesh : M
  nec : List Nat
  nef : List Nat
  flag : Bool

/-- Rerouting of a stale candidate's re-classification result
(remove_degeneracies.h, lines 192-196 and 267-271): a needle halfedge goes
to `next_edges_to_collapse`, else a cap halfedge goes to
`next_edges_to_flip`. -/
def reroute {M : Type} (ops : MeshOps M) (m : M) (nc : Option Nat × Option Nat)
    (nec nef : List Nat) : List Nat × List Nat :=
  match nc.1 with
  | some h0 => (oinsert (ops.edgeOfHalfedge m h0) nec, nef)
  | none =>
    match nc.2 with
    | some h1 => (nec, oinsert (ops.edgeOfHalfedge m h1) nef)
    | none => (nec, nef)

/-- The needle-treatment loop (remove_degeneracies.h, lines 171-242).  The
working set `edges_to_collapse` is the explicit list argument, popped from
its minimum (`*begin()`).  For each popped edge: the link condition is
tested first; on failure the edge is deferred into
`next_edges_to_collapse`.  Otherwise the incident face is re-classified;
if its needle halfedge is not the edge's halfedge the result is rerouted.
Otherwise the `prev` edges of both non-border orientations are erased from
the three working sets, the edge is erased from `edges_to_flip`, and the
edge is collapsed. -/
def processCollapses {M : Type} (ops : MeshOps M) (np : NamedParams) :
    List Nat → CState M → CState M
  | [], st => st
  | e :: rest, st =>
    if ops.linkCondition st.mesh e then
      let m := st.mesh
      let h := ops.halfedgeOfEdge m e
      let nc := is_badly_shaped (ops.faceGeom m (ops.faceOfHalfedge m h)) np
      if nc.1 = some h then
        let b0 := ops.isBorderHalfedge m h
        let pe0 := ops.edgeOfHalfedge m (ops.prev m h)
        let h2 := ops.opp m h
        let b1 := ops.isBorderHalfedge m h2
        let pe1 := ops.edgeOfHalfedge m (ops.prev m h2)
        let etf2 := eraseUnless b1 pe1 (eraseUnless b0 pe0 st.etf)
        let nec2 := eraseUnless b1 pe1 (eraseUnless b0 pe0 st.nec)
        let rest2 := eraseUnless b1 pe1 (eraseUnless b0 pe0 rest)
        processCollapses ops np rest2
          { mesh := ops.collapse_edge m e, etf := etf2.erase e,
            nec := nec2, nef := st.nef, flag := true }
      else
        let rr := reroute ops m nc st.nec st.nef
        processCollapses ops np rest { st with nec := rr.1, nef := rr.2 }
    else
      processCollapses ops np rest { st with nec := oinsert e st.nec }
termination_by l _ => l.length
decreasing_by
  · simp only [eraseUnless]
    split
    · split
      · exact Nat.lt_succ_self _
      · exact Nat.lt_succ_of_le (List.length_erase_le _ _)
    · split
      · exact Nat.lt_succ_of_le (List.length_erase_le _ _)
      · exact Nat.lt_succ_of_le
          (le_trans (List.length_erase_le _ _) (List.length_erase_le _ _))
  · exact Nat.lt_succ_self _
  · exact Nat.lt_succ_self _

/-- The per-face update after a successful flip (remove_degeneracies.h,
lines 311-331): a non-border new face is re-classified; a cap on an edge
other than the flipped edge goes to `next_edges_to_flip`; a needle whose
edge equals the flipped edge re-enters `next_edges_to_collapse`. -/
def flipFaceUpdate {M : Type} (ops : MeshOps M) (np : NamedParams) (m : M)
    (h e : Nat) (acc : List Nat × List Nat) : List Nat × List Nat :=
  if ops.isBorderHalfedge m h then acc
  else
    let nc := is_badly_shaped (ops.faceGeom m (ops.faceOfHalfedge m h)) np
    match nc.2 with
    | some h1 =>
      if ops.edgeOfHalfedge m h1 ≠ e then (acc.1, oinsert (ops.edgeOfHalfedge m h1) acc.2)
      else
        match nc.1 with
        | some h0 => if ops.edgeOfHalfedge m h0 = e then (oinsert e acc.1, acc.2) else acc
        | none => acc
    | none =>
      match nc.1 with
      | some h0 => if ops.edgeOfHalfedge m h0 = e then (oinsert e acc.1, acc.2) else acc
      | none => acc

/-- The cap-treatment loop (remove_degeneracies.h, lines 249-348).  The
working set `edges_to_flip` is the explicit list argument.  For each
popped edge: the incident face is re-classified and a stale candidate's
result is rerouted; a border edge has its non-border face removed after
erasing that face's other two edges from the working set; a flip whose
target edge already exists drops the candidate; otherwise the edge is
flipped, the four neighbouring edges of the two new faces are erased from
the working set, and each new face is re-classified into the next sets. -/
def processFlips {M : Type} (ops : MeshOps M) (np : NamedParams) :
    List Nat → FState M → FState M
  | [], st => st
  | e :: rest, st =>
    let m := st.mesh
    let h := ops.halfedgeOfEdge m e
    let nc := is_badly_shaped (ops.faceGeom m (ops.faceOfHalfedge m h)) np
    if nc.2 = some h then
      if ops.isBorderEdge m e then
        let h' := if ops.isBorderHalfedge m h then ops.opp m h else h
        let rest2 := (rest.erase (ops.edgeOfHalfedge m (ops.prev m h'))).erase
          (ops.edgeOfHalfedge m (ops.next m h'))
        processFlips ops np rest2 { st with mesh := ops.remove_face m h', flag := true }
      else if ops.flipTargetEdgeExists m h then
        processFlips ops np rest st
      else
        let m2 := ops.flip_edge m h
        let rest2 := (rest.erase (ops.edgeOfHalfedge m2 (ops.prev m2 h))).erase
          (ops.edgeOfHalfedge m2 (ops.next m2 h))
        let rest4 := (rest2.erase (ops.edgeOfHalfedge m2 (ops.prev m2 (ops.opp m2 h)))).erase
          (ops.edgeOfHalfedge m2 (ops.next m2 (ops.opp m2 h)))
        let acc1 := flipFaceUpdate ops np m2 h e (st.nec, st.nef)
        let acc2 := flipFaceUpdate ops np m2 (ops.opp m2 h) e acc1
        processFlips ops np rest4 { mesh := m2, nec := acc2.1, nef := acc2.2, flag := true }
    else
      let rr := reroute ops m nc st.nec st.nef
      processFlips ops np rest { st with nec := rr.1, nef := rr.2 }
termination_by l _ => l.length
decreasing_by
  · exact Nat.lt_succ_of_le
      (le_trans (List.length_erase_le _ _) (List.length_erase_le _ _))
  · exact Nat.lt_succ_self _
  · exact Nat.lt_succ_of_le
      (le_trans (List.length_erase_le _ _)
        (le_trans (List.length_erase_le _ _)
          (le_trans (List.length_erase_le _ _) (List.length_erase_le _ _))))
  · exact Nat.lt_succ_self _

/-- State of the outer fixed-point loop: the mesh and the two current
working sets `edges_to_collapse` and `edges_to_flip`. -/
structure DState (M : Type) where
  mesh : M
  etc : List Nat
  etf : List Nat

/-- One full iteration of the outer loop (remove_degeneracies.h, lines
163-351): fresh empty next-generation sets, the needle loop, the cap
loop, then the swap of the next sets into the working sets.  The boolean
is `something_was_done`. -/
def oneIteration {M : Type} (ops : MeshOps M) (np : NamedParams) (st : DState M) :
    DState M × Bool :=
  let c := processCollapses ops np st.etc
    { mesh := st.mesh, etf := st.etf, nec := [], nef := [], flag := false }
  let f := processFlips ops np c.etf
    { mesh := c.mesh, nec := c.nec, nef := c.nef, flag := c.flag }
  ({ mesh := f.mesh, etc := f.nec, etf := f.nef }, f.flag)

/-- The outer `for(;;)` loop (remove_degeneracies.h, lines 146-355): both
sets empty at an iteration start returns `true`; an iteration with
`something_was_done == false` returns `false`.  The fuel argument only
bounds the number of iterations; `none` means the bound was reached. -/
def driverLoop {M : Type} (ops : MeshOps M) (np : NamedParams) :
    Nat → DState M → Option Bool
  | 0, _ => none
  | fuel+1, st =>
    if st.etc = [] ∧ st.etf = [] then some true
    else
      let nxt := oneIteration ops np st
      if nxt.2 then driverLoop ops np fuel nxt.1 else some false

/-- `internal::add_if_badly_shaped` (remove_degeneracies.h, lines 92-120):
a needle halfedge's edge goes to `edges_to_collapse`, else a cap
halfedge's edge goes to `edges_to_flip`. -/
def add_if_badly_shaped {M : Type} (ops : MeshOps M) (np : NamedParams) (m : M)
    (sets : List Nat × List Nat) (f : Nat) : List Nat × List Nat :=
  let res := is_badly_shaped (ops.faceGeom m f) np
  match res.1 with
  | some h0 => (oinsert (ops.edgeOfHalfedge m h0) sets.1, sets.2)
  | none =>
    match res.2 with
    | some h1 => (sets.1, oinsert (ops.edgeOfHalfedge m h1) sets.2)
    | none => sets

/-- The initial classification scan over the supplied face range
(remove_degeneracies.h, lines 140-141). -/
def initialSets {M : Type} (ops : MeshOps M) (np : NamedParams) (m : M)
    (face_range : List Nat) : List Nat × List Nat :=
  face_range.foldl (add_if_badly_shaped ops np m) ([], [])

/-- `remove_almost_degenerate_faces` (remove_degeneracies.h, lines
125-358): initial scan then the fixed-point driver. -/
def remove_almost_degenerate_faces {M : Type} (ops : MeshOps M) (np : NamedParams)
    (face_range : List Nat) (m : M) (fuel : Nat) : Option Bool :=
  let s := initialSets ops np m face_range
  driverLoop ops np fuel { mesh := m, etc := s.1, etf := s.2 }

/-- The sequence of outer-iteration states from a given start state. -/
def iterSt {M : Type} (ops : MeshOps M) (np : NamedParams) (st : DState M) : Nat → DState M
  | 0 => st
  | k+1 => (oneIteration ops np (iterSt ops np st k)).1

/-- Both working sets are empty at a state (the `return true` test of the
outer loop). -/
abbrev emptySets {M : Type} (st : DState M) : Prop :=
  st.etc = [] ∧ st.etf = []

/-- The iteration from a state performs at least one topology change
(`something_was_done`). -/
abbrev madeChange {M : Type} (ops : MeshOps M) (np : NamedParams) (st : DState M) : Prop :=
  (oneIteration ops np st).2 = true

/-- The driver state right after the initial classification scan. -/
def initState {M : Type} (ops : MeshOps M) (np : NamedParams)
    (face_range : List Nat) (m : M) : DState M :=
  { mesh := m, etc := (initialSets ops np m face_range).1,
    etf := (initialSets ops np m face_range).2 }

/-! ## Core B: MST-based normal orientation (mst_orient_normals.h) -/

/-- Points and vectors of the geometric kernel, with rational
coordinates. -/
def Vec3 : Type := ℚ × ℚ × ℚ

instance : Inhabited Vec3 := ⟨(0, 0, 0)⟩

instance : DecidableEq Vec3 := by
  unfold Vec3
  infer_instance

/-- Kernel dot product. -/
def dot (a b : Vec3) : ℚ :=
  a.1 * b.1 + a.2.1 * b.2.1 + a.2.2 * b.2.2

/-- Kernel vector negation (`-target_normal`). -/
def vneg (a : Vec3) : Vec3 :=
  (-a.1, -a.2.1, -a.2.2)

/-- The z coordinate accessor. -/
def zCoord (a : Vec3) : ℚ := a.2.2

/-- The vector `Z(0, 0, 1)` of `mst_find_source`. -/
def zUnit : Vec3 := (0, 0, 1)

/-- An input record of the point set: a position and a read-write unit
normal (the `Enriched_point` of the source). -/
structure EnrichedPoint where
  pos : Vec3
  normal : Vec3
deriving DecidableEq

instance : Inhabited EnrichedPoint := ⟨⟨default, default⟩⟩

/-- Squared Euclidean distance of the kernel. -/
def sqDist (a b : Vec3) : ℚ :=
  (a.1 - b.1) * (a.1 - b.1) + (a.2.1 - b.2.1) * (a.2.1 - b.2.1) +
    (a.2.2 - b.2.2) * (a.2.2 - b.2.2)

/-- Insertion into a list sorted by the boolean comparison `le`. -/
def insertBy (le : Nat → Nat → Bool) (x : Nat) : List Nat → List Nat
  | [] => [x]
  | y :: ys => if le x y then x :: y :: ys else y :: insertBy le x ys

/-- Insertion sort by the boolean comparison `le`. -/
def sortBy (le : Nat → Nat → Bool) : List Nat → List Nat
  | [] => []
  | x :: xs => insertBy le x (sortBy le xs)

/-- Comparison of two point indices by (squared distance to the query
point of index `i`, then index): the deterministic order in which the
spatial index reports neighbours. -/
def distLE (pts : List EnrichedPoint) (i j j' : Nat) : Bool :=
  let q := (pts.getD i default).pos
  let dj := sqDist q ((pts.getD j default).pos)
  let dj' := sqDist q ((pts.getD j' default).pos)
  decide (dj < dj') || (decide (dj = dj') && decide (j ≤ j'))

/-- Modelled from the spec (section 4.5): the external KD-tree search.
`Neighbor_search(tree, point of index i, cnt)` reports the `cnt` nearest
input points to point `i` (the query point itself included), in order of
distance, ties broken by index.  Fewer are reported when fewer exist. -/
def searchList (pts : List EnrichedPoint) (i cnt : Nat) : List Nat :=
  (sortBy (distLE pts i) (List.range pts.length)).take cnt

/-- The k nearest neighbours of point `i` among the other points, per the
spec's words (section 3): this is the kNN relation of the symmetric
closure claim. -/
def knnSpec (pts : List EnrichedPoint) (i k : Nat) : List Nat :=
  (sortBy (distLE pts i) ((List.range pts.length).filter (fun j => j ≠ i))).take k

/-- The edge weight `max(0, 1 - |n_i . n_j|)` (mst_orient_normals.h,
lines 372-379). -/
def riemannianWeight (pts : List EnrichedPoint) (i j : Nat) : ℚ :=
  let w := 1 - |dot ((pts.getD i default).normal) ((pts.getD j default).normal)|
  if w < 0 then 0 else w

/-- The edge set built by `create_riemannian_graph` (mst_orient_normals.h,
lines 342-384): for every point `i`, the `k+1` nearest points are
queried, and for each reported neighbour `j` with `j > i` the undirected
edge `(i, j)` is added. -/
def create_riemannian_graph (pts : List EnrichedPoint) (k : Nat) : List (Nat × Nat) :=
  ((List.range pts.length).map
    (fun i => ((searchList pts i (k+1)).filter (fun j => i < j)).map (fun j => (i, j)))).flatten

/-- The mutable per-vertex data of the propagation: the normal property
map and the `is_oriented` flags of the MST graph vertices. -/
structure PropState where
  normal : Nat → Vec3
  oriented : Nat → Bool

/-- `Propagate_normal_orientation::operator()` (mst_orient_normals.h,
lines 157-186) at the examined tree edge `(s, t)`: nothing happens when
the target is already oriented; otherwise the target normal is negated in
place when the dot product is negative, and the target flag becomes
`is_oriented(s) && (|dot| >= cos(angle_max))`.  `gamma` stands for the
external `cos(m_angle_max)`. -/
def examineEdge (gamma : ℚ) (st : PropState) (s t : Nat) : PropState :=
  if st.oriented t then st
  else
    let d := dot (st.normal s) (st.normal t)
    let nt := if d < 0 then vneg (st.normal t) else st.normal t
    { normal := Function.update st.normal t nt,
      oriented := Function.update st.oriented t (st.oriented s && decide (gamma ≤ |d|)) }

/-- The breadth-first propagation over the directed MST
(mst_orient_normals.h, lines 585-590), level by level: the vertices whose
predecessor lies in the current frontier are the next frontier, and each
such tree edge `(p t, t)` is examined.  Distinct targets in one level and
the unique-predecessor tree shape make this order equivalent to
`boost::breadth_first_search`'s queue order. -/
def propagateRounds (gamma : ℚ) (p : Nat → Nat) (n : Nat) :
    Nat → PropState → List Nat → PropState
  | 0, st, _ => st
  | fuel+1, st, frontier =>
    let nxt := (List.range n).filter (fun t => decide (p t ∈ frontier) && decide (p t ≠ t))
    let st' := nxt.foldl (fun s t => examineEdge gamma s (p t) t) st
    propagateRounds gamma p n fuel st' nxt

/-- The frontier of tree depth `r` reached from the root. -/
def frontierSeq (p : Nat → Nat) (n root : Nat) : Nat → List Nat
  | 0 => [root]
  | r+1 => (List.range n).filter
      (fun t => decide (p t ∈ frontierSeq p n root r) && decide (p t ≠ t))

/-- The propagation state after the rounds of depth `1..r`. -/
def stateAt (gamma : ℚ) (p : Nat → Nat) (n root : Nat) (init : PropState) : Nat → PropState
  | 0 => init
  | r+1 => (frontierSeq p n root (r+1)).foldl
      (fun s t => examineEdge gamma s (p t) t) (stateAt gamma p n root init r)

/-- `mst_find_source` (mst_orient_normals.h, lines 224-232): the index of
the point with maximum z coordinate, first one kept on ties (the scan
replaces the current top only on strictly larger z). -/
def topIndex (pts : List EnrichedPoint) : Nat :=
  (List.range pts.length).foldl
    (fun best v =>
      if zCoord ((pts.getD best default).pos) < zCoord ((pts.getD v default).pos) then v
      else best) 0

/-- The initial normal map after `mst_find_source` (mst_orient_normals.h,
lines 234-240): the top point's normal is negated when its dot product
with +z is negative; every other normal is as input. -/
def sourceAdjustedNormal (pts : List EnrichedPoint) (i : Nat) : Vec3 :=
  let nrm := (pts.getD i default).normal
  if i = topIndex pts ∧ dot zUnit nrm < 0 then vneg nrm else nrm

/-- Iterated predecessor map, applying `p` first: `pIter p d i` is the
ancestor of `i` at distance `d`. -/
def pIter (p : Nat → Nat) : Nat → Nat → Nat
  | 0, i => i
  | d+1, i => pIter p d (p i)

/-- Modelled from the spec (section 4.6): the shape of the predecessor
map computed by the external `boost::prim_minimum_spanning_tree` and
asserted by `create_mst_graph`: the root is its own predecessor,
predecessors stay in range, and every vertex with a tree edge into it is
a tree descendant of the root (reachable within `n` predecessor
steps). -/
def validTree (p : Nat → Nat) (root n : Nat) : Prop :=
  root < n ∧ p root = root ∧ (∀ i, i < n → p i < n) ∧
    (∀ i, i < n → p i ≠ i → pIter p n i = root)

/-- The whole propagation stage of `mst_orient_normals` over a given
predecessor map: the state produced by `create_mst_graph` (every vertex
unoriented except the source, normals as adjusted by `mst_find_source`)
after the breadth-first walk from the source. -/
def mstPropagate (gamma : ℚ) (p : Nat → Nat) (pts : List EnrichedPoint) : PropState :=
  propagateRounds gamma p pts.length pts.length
    { normal := sourceAdjustedNormal pts,
      oriented := fun i => decide (i = topIndex pts) }
    [topIndex pts]

/-- The records at the end of propagation, each with its final normal and
its `is_oriented` flag (the data the copy loop of mst_orient_normals.h,
lines 592-602, reads). -/
def finalRecords (gamma : ℚ) (p : Nat → Nat) (pts : List EnrichedPoint) :
    List (EnrichedPoint × Bool) :=
  (List.range pts.length).map fun i =>
    ({ pts.getD i default with normal := (mstPropagate gamma p pts).normal i },
      (mstPropagate gamma p pts).oriented i)

/-- The copy loop of `mst_orient_normals` (mst_orient_normals.h, lines
592-602): records pushed into the `oriented_points` and
`unoriented_points` deques in input order. -/
def partitionDeques (recs : List (EnrichedPoint × Bool)) :
    List EnrichedPoint × List EnrichedPoint :=
  recs.foldl
    (fun acc r => if r.2 then (acc.1 ++ [r.1], acc.2) else (acc.1, acc.2 ++ [r.1]))
    ([], [])

/-- `mst_orient_normals` (mst_orient_normals.h, lines 528-616) with the
predecessor map of the external Prim MST as a parameter: find the source,
build the graphs, propagate, then overwrite the range with the oriented
records followed by the unoriented ones (lines 604-607).  The returned
natural is the offset of the partition boundary iterator
`first_unoriented_point` from the range start. -/
def mst_orient_normals (gamma : ℚ) (p : Nat → Nat) (pts : List EnrichedPoint) :
    List EnrichedPoint × Nat :=
  let dq := partitionDeques (finalRecords gamma p pts)
  (dq.1 ++ dq.2, dq.1.length)

/-! ## Concrete instances used by witnesses and counterexamples -/

/-- A needle face with a short shortest edge: lengths (1/10, 1/2, 1/2),
ratio 5 and shortest edge 1/10 <= 1/5; interior angle cosines by the law
of cosines. -/
def gNeedleShort : FaceGeom where
  hs := ![10, 11, 12]
  len := ![1/10, 1/2, 1/2]
  cosv := ![49/50, 1/10, 1/10]

/-- A needle face with a long shortest edge: lengths (1, 5, 5), ratio 5
but shortest edge 1 > 1/5. -/
def gNeedleLong : FaceGeom where
  hs := ![10, 11, 12]
  len := ![1, 5, 5]
  cosv := ![49/50, 1/10, 1/10]

/-- A well-shaped equilateral face: neither needle nor cap. -/
def gGood : FaceGeom where
  hs := ![10, 11, 12]
  len := ![1, 1, 1]
  cosv := ![1/2, 1/2, 1/2]

/-- The default options of the spec (section 6). -/
def np0 : NamedParams := {}

/-- Options with a non-default needle ratio of 10. -/
def np10 : NamedParams where
  needle_ratio := 10

/-- A one-face mesh instance whose single face is the short needle
`gNeedleShort`; used with an empty face range. -/
def opsNeedle : MeshOps Unit where
  faces := fun _ => [0]
  halfedgeOfEdge := fun _ h => h
  edgeOfHalfedge := fun _ h => h
  opp := fun _ h => h
  prev := fun _ h => h
  next := fun _ h => h
  faceOfHalfedge := fun _ _ => 0
  isBorderHalfedge := fun _ _ => false
  isBorderEdge := fun _ _ => false
  faceGeom := fun _ _ => gNeedleShort
  linkCondition := fun _ _ => true
  collapse_edge := fun m _ => m
  flip_edge := fun m _ => m
  remove_face := fun m _ => m
  flipTargetEdgeExists := fun _ _ => true

/-- A mesh instance whose faces are all well shaped and whose link
condition always fails; exercises the needle loop on a candidate that is
both stale and uncollapsable. -/
def opsStale : MeshOps Unit where
  faces := fun _ => [0]
  halfedgeOfEdge := fun _ h => h
  edgeOfHalfedge := fun _ h => h
  opp := fun _ h => h
  prev := fun _ h => h
  next := fun _ h => h
  faceOfHalfedge := fun _ _ => 0
  isBorderHalfedge := fun _ _ => false
  isBorderEdge := fun _ _ => false
  faceGeom := fun _ _ => gGood
  linkCondition := fun _ _ => false
  collapse_edge := fun m _ => m
  flip_edge := fun m _ => m
  remove_face := fun m _ => m
  flipTargetEdgeExists := fun _ _ => true

/-- Four collinear points at x = 0, 1, 2, 100: the 2-nearest neighbours
of point 3 are points 2 and 1, but no 3-nearest query of a lower-index
point reports point 3. -/
def pts4 : List EnrichedPoint :=
  [⟨(0, 0, 0), (0, 0, 1)⟩, ⟨(1, 0, 0), (0, 0, 1)⟩,
   ⟨(2, 0, 0), (0, 0, 1)⟩, ⟨(100, 0, 0), (0, 0, 1)⟩]

/-- Two points: the top point (index 0, z = 1) carries a downward normal
that `mst_find_source` flips; the other point's normal is anti-aligned
and gets negated by the propagation. -/
def wPts : List EnrichedPoint :=
  [⟨(0, 0, 1), (0, 0, -1)⟩, ⟨(0, 0, 0), (0, 0, -1)⟩]

/-- The predecessor map of the two-point MST: the root 0 is its own
predecessor and is the predecessor of vertex 1. -/
def wP : Nat → Nat := fun _ => 0

/-- Vertex `i` has minimal tree depth `d`: `d` predecessor steps reach
the root and no fewer do. -/
def IsDepth (p : Nat → Nat) (root i d : Nat) : Prop :=
  pIter p d i = root ∧ ∀ e, e < d → pIter p e i ≠ root

/-! ## Theorems: the classifier (claims C7 and C8) -/

/-- Claim C7, counterexample: `gNeedleLong` has longest-to-shortest edge
ratio 5 > 4, yet `is_badly_shaped` reports it as neither needle nor cap,
because its shortest edge length 1 exceeds the hardcoded collapse length
cap 1/5.  The claim states the classifier returns the shortest-edge
halfedge for every face with ratio above the needle threshold. -/
theorem needle_with_long_shortest_edge_not_reported :
    4 < gNeedleLong.len (argmaxIdx gNeedleLong) / gNeedleLong.len (argminIdx gNeedleLong) ∧
      is_badly_shaped gNeedleLong np0 = (none, none) := by
  constructor
  · norm_num [gNeedleLong, argmaxIdx, argminIdx]
  · norm_num [is_badly_shaped, is_needle_triangle_face, is_cap_triangle_face,
      edge_length, argmaxIdx, argminIdx, gNeedleLong, cap_threshold_value]

/-- Claim C7, amended: for a face whose longest-to-shortest edge ratio
exceeds the hardcoded needle threshold 4, `is_badly_shaped` returns the
shortest-edge halfedge (and a null cap halfedge) when that halfedge's
edge length is at most the hardcoded collapse cap 1/5, and reports the
face as neither needle nor cap otherwise; in both cases the cap test is
not considered. -/
theorem is_badly_shaped_of_needle_ratio (g : FaceGeom) (np : NamedParams)
    (hr : 4 < g.len (argmaxIdx g) / g.len (argminIdx g)) :
    is_badly_shaped g np =
      if edge_length g (g.hs (argminIdx g)) ≤ 1/5 then (some (g.hs (argminIdx g)), none)
      else (none, none) := by
  unfold is_badly_shaped is_needle_triangle_face
  dsimp only
  rw [if_pos hr]

/-- Claim C7, witness: `gNeedleShort` has ratio 5 > 4 and shortest edge
1/10 <= 1/5, and is classified as a needle on its shortest-edge
halfedge. -/
theorem is_badly_shaped_of_needle_ratio_witness :
    is_badly_shaped gNeedleShort np0 =
      if edge_length gNeedleShort (gNeedleShort.hs (argminIdx gNeedleShort)) ≤ 1/5 then
        (some (gNeedleShort.hs (argminIdx gNeedleShort)), none)
      else (none, none) :=
  is_badly_shaped_of_needle_ratio gNeedleShort np0
    (by norm_num [gNeedleShort, argmaxIdx, argminIdx])

/-- Claim C8: the three thresholds of `is_badly_shaped` are hardcoded
(remove_degeneracies.h lines 70-73, `// @todo parameters`), so the
classification of a face never depends on the supplied options: the short
needle face is classified with ratio threshold 4 even when the options
ask for `needle_ratio = 10` (under which its ratio 5 would not be a
needle), and any two option records classify every face identically. -/
theorem named_parameter_thresholds_are_ignored :
    is_badly_shaped gNeedleShort np10 = (some (gNeedleShort.hs (argminIdx gNeedleShort)), none) ∧
      ∀ (g : FaceGeom) (np np' : NamedParams), is_badly_shaped g np = is_badly_shaped g np' := by
  constructor
  · norm_num [is_badly_shaped, is_needle_triangle_face, is_cap_triangle_face,
      edge_length, argmaxIdx, argminIdx, gNeedleShort, cap_threshold_value]
  · intro g np np'
    rfl

/-! ## Theorems: the fixed-point driver (claims C1, C2, C6) -/

theorem iterSt_succ_shift {M : Type} (ops : MeshOps M) (np : NamedParams)
    (st : DState M) (k : Nat) :
    iterSt ops np (oneIteration ops np st).1 k = iterSt ops np st (k+1) := by
  induction k with
  | zero => rfl
  | succ k ih => simp only [iterSt, ih]

/-- Return-value semantics of the outer loop: `some true` is returned
exactly when some iteration start within fuel has both working sets
empty, every earlier iteration having started non-empty and made a
change; `some false` exactly when some iteration starts non-empty and
makes no change, every earlier iteration having started non-empty and
made a change. -/
theorem driverLoop_spec {M : Type} (ops : MeshOps M) (np : NamedParams) :
    ∀ (fuel : Nat) (st : DState M),
      (driverLoop ops np fuel st = some true ↔
        ∃ k, k < fuel ∧ emptySets (iterSt ops np st k) ∧
          ∀ j, j < k → ¬emptySets (iterSt ops np st j) ∧ madeChange ops np (iterSt ops np st j)) ∧
      (driverLoop ops np fuel st = some false ↔
        ∃ k, k < fuel ∧ ¬emptySets (iterSt ops np st k) ∧
          ¬madeChange ops np (iterSt ops np st k) ∧
          ∀ j, j < k → ¬emptySets (iterSt ops np st j) ∧ madeChange ops np (iterSt ops np st j)) := by
  intro fuel
  induction fuel with
  | zero =>
    intro st
    refine ⟨⟨fun h => by simp [driverLoop] at h, ?_⟩, ⟨fun h => by simp [driverLoop] at h, ?_⟩⟩
    · rintro ⟨k, hk, -⟩; omega
    · rintro ⟨k, hk, -⟩; omega
  | succ fuel ih =>
    intro st
    have hshift : ∀ k, iterSt ops np (oneIteration ops np st).1 k = iterSt ops np st (k+1) :=
      iterSt_succ_shift ops np st
    by_cases hemp : emptySets st
    · have hL : driverLoop ops np (fuel+1) st = some true := by
        unfold driverLoop
        rw [if_pos hemp]
      refine ⟨⟨fun _ => ⟨0, by omega, hemp, fun j hj => absurd hj (Nat.not_lt_zero j)⟩, fun _ => hL⟩,
        ⟨fun h => ?_, fun hx => ?_⟩⟩
      · rw [hL] at h; exact absurd (Option.some.inj h) (by simp)
      · obtain ⟨k, hk, hne, -, hall⟩ := hx
        match k with
        | 0 => exact absurd hemp hne
        | k+1 => exact absurd hemp (hall 0 (by omega)).1
    · have hL : driverLoop ops np (fuel+1) st =
          (if (oneIteration ops np st).2 = true then driverLoop ops np fuel (oneIteration ops np st).1
           else some false) := by
        simp only [driverLoop]
        rw [if_neg hemp]
      by_cases hflag : (oneIteration ops np st).2 = true
      · rw [if_pos hflag] at hL
        obtain ⟨ih1, ih2⟩ := ih (oneIteration ops np st).1
        constructor
        · rw [hL, ih1]
          constructor
          · rintro ⟨k, hk, hE, hall⟩
            refine ⟨k+1, by omega, by rwa [hshift] at hE, ?_⟩
            intro j hj
            match j with
            | 0 => exact ⟨hemp, hflag⟩
            | j+1 =>
              have := hall j (by omega)
              rwa [hshift] at this
          · rintro ⟨k, hk, hE, hall⟩
            match k with
            | 0 => exact absurd hE hemp
            | k+1 =>
              refine ⟨k, by omega, by rwa [hshift], ?_⟩
              intro j hj
              rw [hshift]
              exact hall (j+1) (by omega)
        · rw [hL, ih2]
          constructor
          · rintro ⟨k, hk, hE, hM, hall⟩
            refine ⟨k+1, by omega, by rwa [hshift] at hE, by rwa [hshift] at hM, ?_⟩
            intro j hj
            match j with
            | 0 => exact ⟨hemp, hflag⟩
            | j+1 =>
              have := hall j (by omega)
              rwa [hshift] at this
          · rintro ⟨k, hk, hE, hM, hall⟩
            match k with
            | 0 => exact absurd hflag hM
            | k+1 =>
              refine ⟨k, by omega, by rwa [hshift], by rwa [hshift], ?_⟩
              intro j hj
              rw [hshift]
              exact hall (j+1) (by omega)
      · rw [if_neg hflag] at hL
        refine ⟨⟨fun h => ?_, fun hx => ?_⟩,
          ⟨fun _ => ⟨0, by omega, hemp, hflag, fun j hj => absurd hj (Nat.not_lt_zero j)⟩,
            fun _ => hL⟩⟩
        · rw [hL] at h; exact absurd (Option.some.inj h) (by simp)
        · obtain ⟨k, hk, hE, hall⟩ := hx
          match k with
          | 0 => exact absurd hE hemp
          | k+1 => exact absurd (hall 0 (by omega)).2 hflag

/-- Claim C2: `remove_almost_degenerate_faces` returns `true` exactly
when it reaches an iteration start at which both working sets are empty
(every earlier iteration starting non-empty and making a change), and
returns `false` exactly when an iteration that starts with candidate
edges present performs no topology change; both outcomes are reported
through the boolean return value. -/
theorem remove_almost_degenerate_faces_return_semantics {M : Type} (ops : MeshOps M)
    (np : NamedParams) (face_range : List Nat) (m : M) (fuel : Nat) (b : Bool)
    (hrun : remove_almost_degenerate_faces ops np face_range m fuel = some b) :
    (b = true ↔ ∃ k, k < fuel ∧ emptySets (iterSt ops np (initState ops np face_range m) k) ∧
      ∀ j, j < k → ¬emptySets (iterSt ops np (initState ops np face_range m) j) ∧
        madeChange ops np (iterSt ops np (initState ops np face_range m) j)) ∧
    (b = false ↔ ∃ k, k < fuel ∧ ¬emptySets (iterSt ops np (initState ops np face_range m) k) ∧
      ¬madeChange ops np (iterSt ops np (initState ops np face_range m) k) ∧
      ∀ j, j < k → ¬emptySets (iterSt ops np (initState ops np face_range m) j) ∧
        madeChange ops np (iterSt ops np (initState ops np face_range m) j)) := by
  have h := driverLoop_spec ops np fuel (initState ops np face_range m)
  have hrun' : driverLoop ops np fuel (initState ops np face_range m) = some b := hrun
  constructor
  · constructor
    · intro hb
      subst hb
      exact h.1.mp hrun'
    · intro hx
      have := h.1.mpr hx
      rw [hrun'] at this
      exact Option.some.inj this
  · constructor
    · intro hb
      subst hb
      exact h.2.mp hrun'
    · intro hx
      have := h.2.mpr hx
      rw [hrun'] at this
      exact Option.some.inj this

/-- Claim C2, witness: on the one-needle-face instance with face range
[0], the first iteration pops and collapses the needle's edge, the
second iteration starts with both sets empty, and the driver returns
`true`; the semantics theorem instantiates on that run. -/
theorem remove_return_semantics_witness :
    (true = true ↔ ∃ k, k < 2 ∧ emptySets (iterSt opsNeedle np0 (initState opsNeedle np0 [0] ()) k) ∧
      ∀ j, j < k → ¬emptySets (iterSt opsNeedle np0 (initState opsNeedle np0 [0] ()) j) ∧
        madeChange opsNeedle np0 (iterSt opsNeedle np0 (initState opsNeedle np0 [0] ()) j)) ∧
    (true = false ↔ ∃ k, k < 2 ∧ ¬emptySets (iterSt opsNeedle np0 (initState opsNeedle np0 [0] ()) k) ∧
      ¬madeChange opsNeedle np0 (iterSt opsNeedle np0 (initState opsNeedle np0 [0] ()) k) ∧
      ∀ j, j < k → ¬emptySets (iterSt opsNeedle np0 (initState opsNeedle np0 [0] ()) j) ∧
        madeChange opsNeedle np0 (iterSt opsNeedle np0 (initState opsNeedle np0 [0] ()) j)) :=
  remove_almost_degenerate_faces_return_semantics opsNeedle np0 [0] () 2 true
    (by norm_num [remove_almost_degenerate_faces, initialSets, add_if_badly_shaped,
      is_badly_shaped, is_needle_triangle_face, is_cap_triangle_face, edge_length,
      argminIdx, argmaxIdx, gNeedleShort, oinsert, driverLoop, oneIteration,
      processCollapses, processFlips, eraseUnless, reroute, opsNeedle,
      cap_threshold_value, List.erase])

theorem mem_oinsert_self (x : Nat) (l : List Nat) : x ∈ oinsert x l := by
  induction l with
  | nil => simp [oinsert]
  | cons y ys ih =>
    unfold oinsert
    by_cases h1 : x < y
    · simp [h1]
    · by_cases h2 : x = y
      · simp [h1, h2]
      · simp only [if_neg h1, if_neg h2, List.mem_cons]
        exact Or.inr ih

theorem mem_oinsert_of_mem (x z : Nat) (l : List Nat) (h : z ∈ l) : z ∈ oinsert x l := by
  induction l with
  | nil => simp at h
  | cons y ys ih =>
    unfold oinsert
    split
    · exact List.mem_cons_of_mem x h
    · split
      · exact h
      · rcases List.mem_cons.mp h with h' | h'
        · subst h'
          exact List.mem_cons_self _ _
        · exact List.mem_cons_of_mem _ (ih h')

theorem add_if_badly_shaped_mono {M : Type} (ops : MeshOps M) (np : NamedParams) (m : M)
    (acc : List Nat × List Nat) (f x : Nat) :
    (x ∈ acc.1 → x ∈ (add_if_badly_shaped ops np m acc f).1) ∧
    (x ∈ acc.2 → x ∈ (add_if_badly_shaped ops np m acc f).2) := by
  unfold add_if_badly_shaped
  constructor <;> intro hx <;> (dsimp only; split)
  · exact mem_oinsert_of_mem _ _ _ hx
  · split
    · exact hx
    · exact hx
  · exact hx
  · split
    · exact mem_oinsert_of_mem _ _ _ hx
    · exact hx

theorem foldl_add_mono {M : Type} (ops : MeshOps M) (np : NamedParams) (m : M)
    (fr : List Nat) (acc : List Nat × List Nat) (x : Nat) :
    (x ∈ acc.1 → x ∈ (fr.foldl (add_if_badly_shaped ops np m) acc).1) ∧
    (x ∈ acc.2 → x ∈ (fr.foldl (add_if_badly_shaped ops np m) acc).2) := by
  induction fr generalizing acc with
  | nil => exact ⟨id, id⟩
  | cons f fs ih =>
    refine ⟨fun hx => ?_, fun hx => ?_⟩
    · exact (ih (add_if_badly_shaped ops np m acc f)).1
        ((add_if_badly_shaped_mono ops np m acc f x).1 hx)
    · exact (ih (add_if_badly_shaped ops np m acc f)).2
        ((add_if_badly_shaped_mono ops np m acc f x).2 hx)

theorem initialSets_complete {M : Type} (ops : MeshOps M) (np : NamedParams) (m : M)
    (fr : List Nat) (f : Nat) (hf : f ∈ fr) :
    (∀ h0, (is_badly_shaped (ops.faceGeom m f) np).1 = some h0 →
      ops.edgeOfHalfedge m h0 ∈ (initialSets ops np m fr).1) ∧
    ((is_badly_shaped (ops.faceGeom m f) np).1 = none →
      ∀ h1, (is_badly_shaped (ops.faceGeom m f) np).2 = some h1 →
      ops.edgeOfHalfedge m h1 ∈ (initialSets ops np m fr).2) := by
  unfold initialSets
  suffices H : ∀ (acc : List Nat × List Nat),
      (∀ h0, (is_badly_shaped (ops.faceGeom m f) np).1 = some h0 →
        ops.edgeOfHalfedge m h0 ∈ (fr.foldl (add_if_badly_shaped ops np m) acc).1) ∧
      ((is_badly_shaped (ops.faceGeom m f) np).1 = none →
        ∀ h1, (is_badly_shaped (ops.faceGeom m f) np).2 = some h1 →
        ops.edgeOfHalfedge m h1 ∈ (fr.foldl (add_if_badly_shaped ops np m) acc).2) from H ([], [])
  induction fr with
  | nil => simp at hf
  | cons g gs ih =>
    intro acc
    simp only [List.foldl_cons]
    rcases List.mem_cons.mp hf with rfl | hmem
    · constructor
      · intro h0 hh0
        refine (foldl_add_mono ops np m gs _ _).1 ?_
        unfold add_if_badly_shaped
        dsimp only
        rw [hh0]
        exact mem_oinsert_self _ _
      · intro hnone h1 hh1
        refine (foldl_add_mono ops np m gs _ _).2 ?_
        unfold add_if_badly_shaped
        dsimp only
        rw [hnone, hh1]
        dsimp only
        exact mem_oinsert_self _ _
    · exact ih hmem (add_if_badly_shaped ops np m acc g)

/-- Claim C1, counterexample: on a one-face mesh whose single face is a
needle with shortest edge 1/10 <= 1/5, `repair` called with an empty face
range returns `true` without touching the mesh, so the resulting mesh
still contains a face the classifier reports as a needle with edge below
the collapse cap.  The claim asserts that after a `true` return no face
of the resulting mesh is such a needle. -/
theorem returns_true_with_needle_face_remaining :
    remove_almost_degenerate_faces opsNeedle np0 [] () 1 = some true ∧
      0 ∈ opsNeedle.faces () ∧
      (is_badly_shaped (opsNeedle.faceGeom () 0) np0).1 = some 10 ∧
      edge_length (opsNeedle.faceGeom () 0) 10 ≤ 1/5 := by
  refine ⟨rfl, by simp [opsNeedle], ?_, ?_⟩
  · norm_num [opsNeedle, is_badly_shaped, is_needle_triangle_face, edge_length,
      argmaxIdx, argminIdx, gNeedleShort]
  · norm_num [opsNeedle, edge_length, gNeedleShort]

/-- Claim C1, amended: if `remove_almost_degenerate_faces` returns
`true`, it reached an iteration start with both working sets empty, and
the offending edge of every face of the supplied range that the initial
classification reports (needle, or cap when not a needle) was enqueued
into the corresponding initial working set.  No guarantee extends to
faces outside the supplied range, to faces degraded by later operations,
or to candidates dropped as stale or unflippable. -/
theorem remove_true_drained_sets_and_enqueued_range {M : Type} (ops : MeshOps M)
    (np : NamedParams) (face_range : List Nat) (m : M) (fuel : Nat)
    (hrun : remove_almost_degenerate_faces ops np face_range m fuel = some true) :
    (∃ k, k < fuel ∧ emptySets (iterSt ops np (initState ops np face_range m) k)) ∧
    (∀ f, f ∈ face_range → ∀ h0, (is_badly_shaped (ops.faceGeom m f) np).1 = some h0 →
      ops.edgeOfHalfedge m h0 ∈ (initState ops np face_range m).etc) ∧
    (∀ f, f ∈ face_range → (is_badly_shaped (ops.faceGeom m f) np).1 = none →
      ∀ h1, (is_badly_shaped (ops.faceGeom m f) np).2 = some h1 →
      ops.edgeOfHalfedge m h1 ∈ (initState ops np face_range m).etf) := by
  refine ⟨?_, ?_, ?_⟩
  · obtain ⟨k, hk, hE, -⟩ :=
      (driverLoop_spec ops np fuel (initState ops np face_range m)).1.mp hrun
    exact ⟨k, hk, hE⟩
  · intro f hf h0 hh0
    exact (initialSets_complete ops np m face_range f hf).1 h0 hh0
  · intro f hf hnone h1 hh1
    exact (initialSets_complete ops np m face_range f hf).2 hnone h1 hh1

/-- Claim C1, witness: the amended theorem instantiated on the
one-needle-face instance over the face range [0], whose run collapses the
needle edge and drains the sets. -/
theorem remove_true_drained_sets_witness :
    (∃ k, k < 2 ∧ emptySets (iterSt opsNeedle np0 (initState opsNeedle np0 [0] ()) k)) ∧
    (∀ f, f ∈ ([0] : List Nat) → ∀ h0,
      (is_badly_shaped (opsNeedle.faceGeom () f) np0).1 = some h0 →
      opsNeedle.edgeOfHalfedge () h0 ∈ (initState opsNeedle np0 [0] ()).etc) ∧
    (∀ f, f ∈ ([0] : List Nat) → (is_badly_shaped (opsNeedle.faceGeom () f) np0).1 = none →
      ∀ h1, (is_badly_shaped (opsNeedle.faceGeom () f) np0).2 = some h1 →
      opsNeedle.edgeOfHalfedge () h1 ∈ (initState opsNeedle np0 [0] ()).etf) :=
  remove_true_drained_sets_and_enqueued_range opsNeedle np0 [0] () 2
    (by norm_num [remove_almost_degenerate_faces, initialSets, add_if_badly_shaped,
      is_badly_shaped, is_needle_triangle_face, is_cap_triangle_face, edge_length,
      argminIdx, argmaxIdx, gNeedleShort, oinsert, driverLoop, oneIteration,
      processCollapses, processFlips, eraseUnless, reroute, opsNeedle,
      cap_threshold_value, List.erase])

/-- Claim C6, counterexample: a popped collapse candidate whose face has
been re-classified as well shaped (so the needle halfedge of its face is
not the candidate's halfedge) but whose link condition fails is deferred
into next-collapse by the code, because the link condition is tested
before the staleness check; under the claim's order the candidate's
re-classification result `(null, null)` would be rerouted (inserting
nothing) and the link condition never consulted, leaving next-collapse
empty. -/
theorem stale_uncollapsable_candidate_deferred :
    is_badly_shaped (opsStale.faceGeom ()
        (opsStale.faceOfHalfedge () (opsStale.halfedgeOfEdge () 5))) np0 = (none, none) ∧
    opsStale.linkCondition () 5 = false ∧
    (processCollapses opsStale np0 [5]
        { mesh := (), etf := [], nec := [], nef := [], flag := false }).nec = [5] ∧
    ¬ (processCollapses opsStale np0 [5]
        { mesh := (), etf := [], nec := [], nef := [], flag := false }).nec = [] := by
  refine ⟨?_, rfl, ?_, ?_⟩
  · norm_num [opsStale, is_badly_shaped, is_needle_triangle_face, is_cap_triangle_face,
      edge_length, argmaxIdx, argminIdx, gGood, cap_threshold_value]
  · simp [processCollapses, opsStale, oinsert]
  · simp [processCollapses, opsStale, oinsert]

/-- Claim C6, amended: for every edge popped from the collapse working
set, the driver first tests the link condition, and on failure defers the
edge into next-collapse without re-classifying; only a candidate passing
the link condition has its incident face re-classified, and if the needle
halfedge of that face is not the candidate's halfedge the
re-classification result is rerouted into next-collapse or next-flip and
the candidate is not collapsed (the state continues with the mesh
unchanged). -/
theorem processCollapses_pop_order {M : Type} (ops : MeshOps M) (np : NamedParams)
    (e : Nat) (rest : List Nat) (st : CState M) :
    (ops.linkCondition st.mesh e = false →
      processCollapses ops np (e :: rest) st =
        processCollapses ops np rest { st with nec := oinsert e st.nec }) ∧
    (ops.linkCondition st.mesh e = true →
      (is_badly_shaped (ops.faceGeom st.mesh
          (ops.faceOfHalfedge st.mesh (ops.halfedgeOfEdge st.mesh e))) np).1 ≠
        some (ops.halfedgeOfEdge st.mesh e) →
      processCollapses ops np (e :: rest) st =
        processCollapses ops np rest
          { st with
            nec := (reroute ops st.mesh
              (is_badly_shaped (ops.faceGeom st.mesh
                (ops.faceOfHalfedge st.mesh (ops.halfedgeOfEdge st.mesh e))) np)
              st.nec st.nef).1,
            nef := (reroute ops st.mesh
              (is_badly_shaped (ops.faceGeom st.mesh
                (ops.faceOfHalfedge st.mesh (ops.halfedgeOfEdge st.mesh e))) np)
              st.nec st.nef).2 }) := by
  constructor
  · intro hlink
    conv_lhs => rw [processCollapses]
    simp [hlink]
  · intro hlink hstale
    conv_lhs => rw [processCollapses]
    simp only [hlink, if_true]
    rw [if_neg hstale]

/-- Claim C6, witness: on the concrete instance the link-condition-first
branch of the amended theorem yields the deferral equation. -/
theorem processCollapses_pop_order_witness :
    processCollapses opsStale np0 [5]
        { mesh := (), etf := [], nec := [], nef := [], flag := false } =
      processCollapses opsStale np0 []
        { mesh := (), etf := [], nec := oinsert 5 [], nef := [], flag := false } :=
  (processCollapses_pop_order opsStale np0 5 []
      { mesh := (), etf := [], nec := [], nef := [], flag := false }).1 rfl

/-! ## Theorems: the Riemannian graph (claim C3) -/

/-- Claim C3, counterexample: on `pts4` with k = 2, point 2 is among the
2 nearest neighbours of point 3, yet the undirected edge (2, 3) is absent
from the built graph: the index-ordered deduplication only admits an edge
from the lower-index side's query, and point 3 is not among the 3-nearest
reported for point 2.  The claim asserts the edge set is the symmetric
closure of the kNN relation. -/
theorem riemannian_graph_misses_symmetric_closure_edge :
    2 ∈ knnSpec pts4 3 2 ∧ (2, 3) ∉ create_riemannian_graph pts4 2 := by
  constructor
  · norm_num [knnSpec, sortBy, insertBy, distLE, sqDist, pts4, List.range_succ]
  · norm_num [create_riemannian_graph, searchList, sortBy, insertBy, distLE, sqDist,
      pts4, List.range_succ]

/-- Claim C3, amended: for indices `i < j` with `i` in range, the
undirected edge (i, j) is present in the graph iff `j` is among the `k+1`
nearest points reported for the query at `i` (the query point itself
included); edges justified only by the higher-index side's neighbourhood
are not added. -/
theorem riemannian_graph_edge_iff (pts : List EnrichedPoint) (k i j : Nat)
    (hi : i < pts.length) (hij : i < j) :
    (i, j) ∈ create_riemannian_graph pts k ↔ j ∈ searchList pts i (k+1) := by
  unfold create_riemannian_graph
  rw [List.mem_flatten]
  constructor
  · rintro ⟨l, hl, hmem⟩
    rw [List.mem_map] at hl
    obtain ⟨i', _, rfl⟩ := hl
    rw [List.mem_map] at hmem
    obtain ⟨j', hj', hpair⟩ := hmem
    simp only [Prod.mk.injEq] at hpair
    obtain ⟨rfl, rfl⟩ := hpair
    exact (List.mem_filter.mp hj').1
  · intro hj
    refine ⟨((searchList pts i (k+1)).filter (fun j' => i < j')).map (fun j' => (i, j')),
      List.mem_map.mpr ⟨i, List.mem_range.mpr hi, rfl⟩,
      List.mem_map.mpr ⟨j, List.mem_filter.mpr ⟨hj, by simpa using hij⟩, rfl⟩⟩

/-- Claim C3, witness: on `pts4` with k = 2 the amended characterization
instantiates at the pair (0, 1). -/
theorem riemannian_graph_edge_iff_witness :
    (0, 1) ∈ create_riemannian_graph pts4 2 ↔ 1 ∈ searchList pts4 0 3 :=
  riemannian_graph_edge_iff pts4 2 0 1 (by norm_num [pts4]) (by norm_num)

/-! ## Theorems: the orientation propagation (claims C4, C5, C9, C10) -/

theorem pIter_succ_apply (p : Nat → Nat) (d i : Nat) :
    pIter p (d+1) i = pIter p d (p i) := rfl

theorem pIter_fixed (p : Nat → Nat) (i : Nat) (h : p i = i) :
    ∀ d, pIter p d i = i := by
  intro d
  induction d with
  | zero => rfl
  | succ d ih => rw [pIter_succ_apply, h, ih]

theorem isDepth_exists (p : Nat → Nat) (root n i : Nat) (h : pIter p n i = root) :
    ∃ d, d ≤ n ∧ IsDepth p root i d := by
  classical
  have hex : ∃ d, pIter p d i = root := ⟨n, h⟩
  refine ⟨Nat.find hex, Nat.find_min' hex h, Nat.find_spec hex, ?_⟩
  intro e he
  exact Nat.find_min hex he

theorem isDepth_unique (p : Nat → Nat) (root i d d' : Nat)
    (h : IsDepth p root i d) (h' : IsDepth p root i d') : d = d' := by
  rcases Nat.lt_trichotomy d d' with hlt | heq | hgt
  · exact absurd h.1 (h'.2 d hlt)
  · exact heq
  · exact absurd h'.1 (h.2 d' hgt)

theorem isDepth_zero_iff (p : Nat → Nat) (root i : Nat) :
    IsDepth p root i 0 ↔ i = root := by
  constructor
  · intro h
    exact h.1
  · intro h
    exact ⟨h, fun e he => absurd he (Nat.not_lt_zero e)⟩

theorem isDepth_parent (p : Nat → Nat) (root i r : Nat)
    (h : IsDepth p root i (r+1)) :
    IsDepth p root (p i) r := by
  refine ⟨h.1, ?_⟩
  intro e he
  exact h.2 (e+1) (by omega)

theorem isDepth_succ_ne_self (p : Nat → Nat) (root i r : Nat)
    (h : IsDepth p root i (r+1)) : p i ≠ i := by
  intro hpi
  have h0 : pIter p (r+1) i = i := pIter_fixed p i hpi (r+1)
  have : pIter p 0 i = root := by
    rw [← h0] at *
    exact h.1
  exact h.2 0 (by omega) this

/-- Frontier membership is exactly minimal depth (for vertices in
range). -/
theorem frontierSeq_mem (p : Nat → Nat) (root n : Nat)
    (hv : validTree p root n) :
    ∀ r i, i ∈ frontierSeq p n root r ↔ (i < n ∧ IsDepth p root i r) := by
  obtain ⟨hroot_lt, hroot, hrange, _⟩ := hv
  intro r
  induction r with
  | zero =>
    intro i
    simp only [frontierSeq, List.mem_singleton, isDepth_zero_iff]
    constructor
    · rintro rfl
      exact ⟨hroot_lt, rfl⟩
    · rintro ⟨-, rfl⟩
      rfl
  | succ r ih =>
    intro i
    simp only [frontierSeq, List.mem_filter, List.mem_range, Bool.and_eq_true,
      decide_eq_true_eq]
    constructor
    · rintro ⟨hin, hpf, hpi⟩
      obtain ⟨hpn, hdep⟩ := (ih (p i)).mp hpf
      refine ⟨hin, ⟨hdep.1, ?_⟩⟩
      intro e he
      match e with
      | 0 =>
        intro h0
        have : p i = i := by rw [show i = root from h0, hroot]
        exact hpi this
      | e+1 =>
        exact hdep.2 e (by omega)
    · rintro ⟨hin, hdep⟩
      have hpi : p i ≠ i := isDepth_succ_ne_self p root i r hdep
      refine ⟨hin, (ih (p i)).mpr ⟨hrange i hin, isDepth_parent p root i r hdep⟩, hpi⟩

theorem frontierSeq_nodup (p : Nat → Nat) (n root : Nat) (r : Nat) :
    (frontierSeq p n root r).Nodup := by
  match r with
  | 0 => simp [frontierSeq]
  | r+1 => exact (List.nodup_range n).filter _

theorem examineEdge_frame (gamma : ℚ) (st : PropState) (s t x : Nat) (hx : x ≠ t) :
    (examineEdge gamma st s t).normal x = st.normal x ∧
    (examineEdge gamma st s t).oriented x = st.oriented x := by
  unfold examineEdge
  split
  · exact ⟨rfl, rfl⟩
  · exact ⟨Function.update_noteq hx _ _, Function.update_noteq hx _ _⟩

theorem foldl_examine_frame (gamma : ℚ) (p : Nat → Nat) (L : List Nat) :
    ∀ (st : PropState) (x : Nat), x ∉ L →
    ((L.foldl (fun s t => examineEdge gamma s (p t) t) st)).normal x = st.normal x ∧
    ((L.foldl (fun s t => examineEdge gamma s (p t) t) st)).oriented x = st.oriented x := by
  induction L with
  | nil => exact fun st x _ => ⟨rfl, rfl⟩
  | cons u L' ih =>
    intro st x hx
    have hxu : x ≠ u := fun h => hx (h ▸ List.mem_cons_self u L')
    have hxL : x ∉ L' := fun h => hx (List.mem_cons_of_mem u h)
    rw [List.foldl_cons]
    exact ⟨by rw [(ih _ x hxL).1, (examineEdge_frame gamma st (p u) u x hxu).1],
      by rw [(ih _ x hxL).2, (examineEdge_frame gamma st (p u) u x hxu).2]⟩

/-- One propagation round over a duplicate-free list of targets whose
predecessors lie outside the list: the examined edge at `t` updates `t`
from the unchanged value of its predecessor. -/
theorem foldl_examine_compute (gamma : ℚ) (p : Nat → Nat) (L : List Nat) :
    ∀ (st : PropState) (t : Nat), L.Nodup → t ∈ L → (∀ u, u ∈ L → p u ∉ L) →
    st.oriented t = false →
    ((L.foldl (fun s t' => examineEdge gamma s (p t') t') st)).normal t =
      (if dot (st.normal (p t)) (st.normal t) < 0 then vneg (st.normal t) else st.normal t) ∧
    ((L.foldl (fun s t' => examineEdge gamma s (p t') t') st)).oriented t =
      (st.oriented (p t) && decide (gamma ≤ |dot (st.normal (p t)) (st.normal t)|)) := by
  induction L with
  | nil =>
    intro st t _ ht
    simp at ht
  | cons u L' ih =>
    intro st t hnd htL hcl hor
    rw [List.foldl_cons]
    rcases List.mem_cons.mp htL with rfl | htL'
    · have htnotL' : t ∉ L' := (List.nodup_cons.mp hnd).1
      have hstep : (examineEdge gamma st (p t) t).normal t =
          (if dot (st.normal (p t)) (st.normal t) < 0 then vneg (st.normal t) else st.normal t) ∧
          (examineEdge gamma st (p t) t).oriented t =
          (st.oriented (p t) && decide (gamma ≤ |dot (st.normal (p t)) (st.normal t)|)) := by
        unfold examineEdge
        rw [hor]
        simp
      have hframe := foldl_examine_frame gamma p L' (examineEdge gamma st (p t) t) t htnotL'
      exact ⟨hframe.1.trans hstep.1, hframe.2.trans hstep.2⟩
    · have hnd' := (List.nodup_cons.mp hnd).2
      have hcl' : ∀ u', u' ∈ L' → p u' ∉ L' := fun u' hu' hmem =>
        hcl u' (List.mem_cons_of_mem u hu') (List.mem_cons_of_mem u hmem)
      have ht_ne_u : t ≠ u := fun h => (List.nodup_cons.mp hnd).1 (h ▸ htL')
      have hpt_ne_u : p t ≠ u := fun h => hcl t htL (h ▸ List.mem_cons_self u L')
      have f1 := examineEdge_frame gamma st (p u) u t ht_ne_u
      have f2 := examineEdge_frame gamma st (p u) u (p t) hpt_ne_u
      have hor1 : (examineEdge gamma st (p u) u).oriented t = false := by
        rw [f1.2, hor]
      have res := ih (examineEdge gamma st (p u) u) t hnd' htL' hcl' hor1
      constructor
      · rw [res.1, f1.1, f2.1]
      · rw [res.2, f2.2, f2.1, f1.1]

/-- The level-by-level runner agrees with the round-indexed state
sequence. -/
theorem propagateRounds_stateAt (gamma : ℚ) (p : Nat → Nat) (n root : Nat)
    (init : PropState) :
    ∀ (fuel r : Nat),
      propagateRounds gamma p n fuel (stateAt gamma p n root init r) (frontierSeq p n root r) =
        stateAt gamma p n root init (fuel + r) := by
  intro fuel
  induction fuel with
  | zero =>
    intro r
    rw [Nat.zero_add]
    rfl
  | succ fuel ih =>
    intro r
    have h := ih (r+1)
    rw [Nat.add_succ] at h
    rw [Nat.succ_add]
    exact h

/-- The full propagation stage is the state after `n` rounds. -/
theorem mstPropagate_eq_stateAt (gamma : ℚ) (p : Nat → Nat) (pts : List EnrichedPoint) :
    mstPropagate gamma p pts =
      stateAt gamma p pts.length (topIndex pts)
        { normal := sourceAdjustedNormal pts, oriented := fun i => decide (i = topIndex pts) }
        pts.length := by
  have h := propagateRounds_stateAt gamma p pts.length (topIndex pts)
    { normal := sourceAdjustedNormal pts, oriented := fun i => decide (i = topIndex pts) }
    pts.length 0
  simpa using h

/-- A vertex in no examined frontier keeps its initial values. -/
theorem stateAt_untouched (gamma : ℚ) (p : Nat → Nat) (n root : Nat) (init : PropState) :
    ∀ (r i : Nat), (∀ s, 1 ≤ s → s ≤ r → i ∉ frontierSeq p n root s) →
    (stateAt gamma p n root init r).normal i = init.normal i ∧
    (stateAt gamma p n root init r).oriented i = init.oriented i := by
  intro r
  induction r with
  | zero => exact fun i _ => ⟨rfl, rfl⟩
  | succ r ih =>
    intro i hs
    have hnot : i ∉ frontierSeq p n root (r+1) := hs (r+1) (by omega) (le_refl _)
    have prev := ih i (fun s h1 h2 => hs s h1 (by omega))
    have hfold := foldl_examine_frame gamma p (frontierSeq p n root (r+1))
      (stateAt gamma p n root init r) i hnot
    exact ⟨hfold.1.trans prev.1, hfold.2.trans prev.2⟩

/-- A vertex's values are frozen after the round of its depth. -/
theorem stateAt_persist (gamma : ℚ) (p : Nat → Nat) (n root : Nat) (init : PropState)
    (hv : validTree p root n) :
    ∀ (r i : Nat), i ∈ frontierSeq p n root r → ∀ m, r ≤ m →
    (stateAt gamma p n root init m).normal i = (stateAt gamma p n root init r).normal i ∧
    (stateAt gamma p n root init m).oriented i = (stateAt gamma p n root init r).oriented i := by
  intro r i hi m
  induction m with
  | zero =>
    intro h0
    have : r = 0 := Nat.le_zero.mp h0
    subst this
    exact ⟨rfl, rfl⟩
  | succ m ih =>
    intro hrm
    by_cases hr : r = m+1
    · subst hr
      exact ⟨rfl, rfl⟩
    · have hm : r ≤ m := by omega
      have prev := ih hm
      have hnot : i ∉ frontierSeq p n root (m+1) := by
        intro hmem
        have d1 := (frontierSeq_mem p root n hv r i).mp hi
        have d2 := (frontierSeq_mem p root n hv (m+1) i).mp hmem
        have := isDepth_unique p root i r (m+1) d1.2 d2.2
        omega
      have hfold := foldl_examine_frame gamma p (frontierSeq p n root (m+1))
        (stateAt gamma p n root init m) i hnot
      exact ⟨hfold.1.trans prev.1, hfold.2.trans prev.2⟩

/-- The root keeps its initial normal and flag through every round. -/
theorem stateAt_root_fixed (gamma : ℚ) (p : Nat → Nat) (n root : Nat) (init : PropState)
    (hv : validTree p root n) :
    ∀ m, (stateAt gamma p n root init m).normal root = init.normal root ∧
      (stateAt gamma p n root init m).oriented root = init.oriented root := by
  intro m
  refine stateAt_untouched gamma p n root init m root ?_
  intro s h1 h2 hmem
  obtain ⟨-, hds⟩ := (frontierSeq_mem p root n hv s root).mp hmem
  have := isDepth_unique p root root 0 s ((isDepth_zero_iff p root root).mpr rfl) hds
  omega

/-- The round of a vertex's depth computes its value from its
predecessor's (already final) value and its own initial normal. -/
theorem stateAt_compute (gamma : ℚ) (p : Nat → Nat) (n root : Nat) (init : PropState)
    (hv : validTree p root n) (hinit : ∀ i, init.oriented i = decide (i = root)) :
    ∀ r i, i ∈ frontierSeq p n root (r+1) →
    (stateAt gamma p n root init (r+1)).normal i =
      (if dot ((stateAt gamma p n root init r).normal (p i)) (init.normal i) < 0
       then vneg (init.normal i) else init.normal i) ∧
    (stateAt gamma p n root init (r+1)).oriented i =
      ((stateAt gamma p n root init r).oriented (p i) &&
        decide (gamma ≤ |dot ((stateAt gamma p n root init r).normal (p i)) (init.normal i)|)) := by
  intro r i hi
  obtain ⟨hin, hdep⟩ := (frontierSeq_mem p root n hv (r+1) i).mp hi
  have hclosure : ∀ u, u ∈ frontierSeq p n root (r+1) → p u ∉ frontierSeq p n root (r+1) := by
    intro u hu hpu
    obtain ⟨hun, hud⟩ := (frontierSeq_mem p root n hv (r+1) u).mp hu
    obtain ⟨hpn, hpd⟩ := (frontierSeq_mem p root n hv (r+1) (p u)).mp hpu
    have hpune : p u ≠ u := isDepth_succ_ne_self p root u r hud
    have hd := isDepth_parent p root u r hud
    have := isDepth_unique p root (p u) r (r+1) hd hpd
    omega
  have huntouched : ∀ s, 1 ≤ s → s ≤ r → i ∉ frontierSeq p n root s := by
    intro s h1 h2 hmem
    obtain ⟨-, hds⟩ := (frontierSeq_mem p root n hv s i).mp hmem
    have := isDepth_unique p root i s (r+1) hds hdep
    omega
  have hprev := stateAt_untouched gamma p n root init r i huntouched
  have hornot : (stateAt gamma p n root init r).oriented i = false := by
    rw [hprev.2, hinit i]
    have hne : i ≠ root := by
      intro h
      have hdep0 : IsDepth p root i 0 := (isDepth_zero_iff p root i).mpr h
      have := isDepth_unique p root i 0 (r+1) hdep0 hdep
      omega
    simp [hne]
  have hfold := foldl_examine_compute gamma p (frontierSeq p n root (r+1))
    (stateAt gamma p n root init r) i (frontierSeq_nodup p n root (r+1)) hi hclosure hornot
  rw [hprev.1] at hfold
  exact hfold

/-- Final-state characterization of every examined tree edge: the target
normal is the initial target normal, negated exactly when its dot product
with the final predecessor normal is negative, and the target flag is the
conjunction of the predecessor's final flag with the angle test on that
dot product. -/
theorem stateAt_final_char (gamma : ℚ) (p : Nat → Nat) (n root : Nat) (init : PropState)
    (hv : validTree p root n) (hinit : ∀ i, init.oriented i = decide (i = root)) :
    ∀ t, t < n → p t ≠ t →
    (stateAt gamma p n root init n).normal t =
      (if dot ((stateAt gamma p n root init n).normal (p t)) (init.normal t) < 0
       then vneg (init.normal t) else init.normal t) ∧
    (stateAt gamma p n root init n).oriented t =
      ((stateAt gamma p n root init n).oriented (p t) &&
        decide (gamma ≤ |dot ((stateAt gamma p n root init n).normal (p t)) (init.normal t)|)) := by
  intro t ht hpt
  have hreach := hv.2.2.2 t ht hpt
  obtain ⟨d, hdn, hdep⟩ := isDepth_exists p root n t hreach
  have hd1 : d ≠ 0 := by
    intro h
    subst h
    exact hpt (by rw [(isDepth_zero_iff p root t).mp hdep, hv.2.1])
  obtain ⟨e, rfl⟩ : ∃ e, d = e + 1 := ⟨d - 1, by omega⟩
  have hmem : t ∈ frontierSeq p n root (e+1) :=
    (frontierSeq_mem p root n hv (e+1) t).mpr ⟨ht, hdep⟩
  have hpersist := stateAt_persist gamma p n root init hv (e+1) t hmem n (by omega)
  have hcomp := stateAt_compute gamma p n root init hv hinit e t hmem
  have hparent :
      (stateAt gamma p n root init e).normal (p t) =
        (stateAt gamma p n root init n).normal (p t) ∧
      (stateAt gamma p n root init e).oriented (p t) =
        (stateAt gamma p n root init n).oriented (p t) := by
    rcases Nat.eq_zero_or_pos e with rfl | hpos
    · have hptroot : p t = root :=
        (isDepth_zero_iff p root (p t)).mp (isDepth_parent p root t 0 hdep)
      rw [hptroot]
      have h0 := stateAt_root_fixed gamma p n root init hv 0
      have hn := stateAt_root_fixed gamma p n root init hv n
      exact ⟨h0.1.trans hn.1.symm, h0.2.trans hn.2.symm⟩
    · obtain ⟨e', rfl⟩ : ∃ e', e = e'+1 := ⟨e-1, by omega⟩
      have hpmem : p t ∈ frontierSeq p n root (e'+1) :=
        (frontierSeq_mem p root n hv (e'+1) (p t)).mpr
          ⟨hv.2.2.1 t ht, isDepth_parent p root t (e'+1) hdep⟩
      have hp := stateAt_persist gamma p n root init hv (e'+1) (p t) hpmem n (by omega)
      exact ⟨hp.1.symm, hp.2.symm⟩
  constructor
  · rw [hpersist.1, hcomp.1, hparent.1]
  · rw [hpersist.2, hcomp.2, hparent.1, hparent.2]

theorem dot_vneg (a b : Vec3) : dot a (vneg b) = -(dot a b) := by
  unfold dot vneg
  ring

theorem zCoord_vneg (a : Vec3) : zCoord (vneg a) = -(zCoord a) := rfl

/-- Claim C4: for every examined MST tree edge `(p t, t)`, the final
target normal is the pre-examination target normal negated exactly when
its dot product with the (final) source normal is negative — the flip is
performed whether or not the flag ends up true — and the final target
flag is `is_oriented(source) && (|dot| >= cos(angle_max))` with the dot
product taken before the flip. -/
theorem propagation_edge_update (gamma : ℚ) (p : Nat → Nat) (pts : List EnrichedPoint)
    (hv : validTree p (topIndex pts) pts.length) (t : Nat) (ht : t < pts.length)
    (hpt : p t ≠ t) :
    (mstPropagate gamma p pts).normal t =
      (if dot ((mstPropagate gamma p pts).normal (p t)) (sourceAdjustedNormal pts t) < 0
       then vneg (sourceAdjustedNormal pts t) else sourceAdjustedNormal pts t) ∧
    (mstPropagate gamma p pts).oriented t =
      ((mstPropagate gamma p pts).oriented (p t) &&
        decide (gamma ≤ |dot ((mstPropagate gamma p pts).normal (p t))
          (sourceAdjustedNormal pts t)|)) := by
  have hchar := stateAt_final_char gamma p pts.length (topIndex pts)
    { normal := sourceAdjustedNormal pts, oriented := fun i => decide (i = topIndex pts) }
    hv (fun i => rfl) t ht hpt
  rw [mstPropagate_eq_stateAt]
  exact hchar

theorem wPts_valid : validTree wP (topIndex wPts) wPts.length := by
  have htop : topIndex wPts = 0 := by
    norm_num [topIndex, wPts, zCoord, List.range_succ]
  rw [htop]
  refine ⟨by norm_num [wPts], rfl, ?_, ?_⟩
  · intro i hi
    simp [wP, wPts] at hi ⊢
  · intro i hi hne
    rfl

/-- Claim C4, witness: on the two-point instance the examined edge
(0, 1) flips the anti-aligned target normal and orients it. -/
theorem propagation_edge_update_witness :
    (mstPropagate 0 wP wPts).normal 1 =
      (if dot ((mstPropagate 0 wP wPts).normal (wP 1)) (sourceAdjustedNormal wPts 1) < 0
       then vneg (sourceAdjustedNormal wPts 1) else sourceAdjustedNormal wPts 1) ∧
    (mstPropagate 0 wP wPts).oriented 1 =
      ((mstPropagate 0 wP wPts).oriented (wP 1) &&
        decide ((0:ℚ) ≤ |dot ((mstPropagate 0 wP wPts).normal (wP 1))
          (sourceAdjustedNormal wPts 1)|)) :=
  propagation_edge_update 0 wP wPts wPts_valid 1 (by norm_num [wPts]) (by norm_num [wP])

/-- Claim C5: after propagation, along every MST tree edge the final
source and target normals have non-negative dot product. -/
theorem mst_tree_edges_not_antialigned (gamma : ℚ) (p : Nat → Nat) (pts : List EnrichedPoint)
    (hv : validTree p (topIndex pts) pts.length) (t : Nat) (ht : t < pts.length)
    (hpt : p t ≠ t) :
    0 ≤ dot ((mstPropagate gamma p pts).normal (p t)) ((mstPropagate gamma p pts).normal t) := by
  have hchar := stateAt_final_char gamma p pts.length (topIndex pts)
    { normal := sourceAdjustedNormal pts, oriented := fun i => decide (i = topIndex pts) }
    hv (fun i => rfl) t ht hpt
  rw [mstPropagate_eq_stateAt]
  rw [hchar.1]
  split
  · next hd =>
      rw [dot_vneg]
      linarith
  · next hd =>
      exact le_of_not_lt hd

/-- Claim C5, witness: on the two-point instance the edge (0, 1) ends
with non-negatively aligned normals. -/
theorem mst_tree_edges_not_antialigned_witness :
    0 ≤ dot ((mstPropagate 0 wP wPts).normal (wP 1)) ((mstPropagate 0 wP wPts).normal 1) :=
  mst_tree_edges_not_antialigned 0 wP wPts wPts_valid 1 (by norm_num [wPts]) (by norm_num [wP])

theorem foldl_argmax_key_le (key : Nat → ℚ) (l : List Nat) :
    ∀ b, key b ≤ key (l.foldl (fun best v => if key best < key v then v else best) b) := by
  induction l with
  | nil => exact fun b => le_refl _
  | cons u us ih =>
    intro b
    rw [List.foldl_cons]
    refine le_trans ?_ (ih (if key b < key u then u else b))
    split
    · next h => exact le_of_lt h
    · exact le_refl _

theorem foldl_argmax_all_le (key : Nat → ℚ) (l : List Nat) :
    ∀ b v, v ∈ l → key v ≤ key (l.foldl (fun best v => if key best < key v then v else best) b) := by
  induction l with
  | nil =>
    intro b v hv
    simp at hv
  | cons u us ih =>
    intro b v hv
    rw [List.foldl_cons]
    rcases List.mem_cons.mp hv with rfl | hv'
    · refine le_trans ?_ (foldl_argmax_key_le key us (if key b < key v then v else b))
      split
      · exact le_refl _
      · next h => exact le_of_not_lt h
    · exact ih _ v hv'

/-- `mst_find_source` picks a point of maximum z coordinate. -/
theorem topIndex_is_max (pts : List EnrichedPoint) :
    ∀ j, j < pts.length →
      zCoord ((pts.getD j default).pos) ≤ zCoord ((pts.getD (topIndex pts) default).pos) := by
  intro j hj
  exact foldl_argmax_all_le (fun v => zCoord ((pts.getD v default).pos))
    (List.range pts.length) 0 j (List.mem_range.mpr hj)

/-- The normal `mst_find_source` leaves on the top point has
non-negative dot product with +z. -/
theorem sourceAdjustedNormal_top_up (pts : List EnrichedPoint) :
    0 ≤ dot zUnit (sourceAdjustedNormal pts (topIndex pts)) := by
  unfold sourceAdjustedNormal
  by_cases h : dot zUnit ((pts.getD (topIndex pts) default).normal) < 0
  · rw [if_pos ⟨rfl, h⟩, dot_vneg]
    linarith
  · rw [if_neg (fun hc => h hc.2)]
    exact le_of_not_lt h

/-- Claim C10: the seed (the first point of maximum z) is the unique
initially oriented vertex; the propagation never writes it (it has no
incoming tree edge), so its final normal is exactly the one
`mst_find_source` set, its flag stays true, and its normal's dot product
with +z is non-negative. -/
theorem seed_normal_never_modified (gamma : ℚ) (p : Nat → Nat) (pts : List EnrichedPoint)
    (hne : pts ≠ []) (hv : validTree p (topIndex pts) pts.length) :
    (mstPropagate gamma p pts).normal (topIndex pts) = sourceAdjustedNormal pts (topIndex pts) ∧
    (mstPropagate gamma p pts).oriented (topIndex pts) = true ∧
    0 ≤ dot zUnit ((mstPropagate gamma p pts).normal (topIndex pts)) ∧
    (∀ j, j < pts.length →
      zCoord ((pts.getD j default).pos) ≤ zCoord ((pts.getD (topIndex pts) default).pos)) := by
  have hroot := stateAt_root_fixed gamma p pts.length (topIndex pts)
    { normal := sourceAdjustedNormal pts, oriented := fun i => decide (i = topIndex pts) }
    hv pts.length
  rw [mstPropagate_eq_stateAt]
  refine ⟨hroot.1, ?_, ?_, topIndex_is_max pts⟩
  · rw [hroot.2]
    simp
  · rw [hroot.1]
    exact sourceAdjustedNormal_top_up pts

/-- Claim C10, witness: on the two-point instance the seed's downward
input normal is flipped once by `mst_find_source` and never touched
again. -/
theorem seed_normal_never_modified_witness :
    (mstPropagate 0 wP wPts).normal (topIndex wPts) = sourceAdjustedNormal wPts (topIndex wPts) ∧
    (mstPropagate 0 wP wPts).oriented (topIndex wPts) = true ∧
    0 ≤ dot zUnit ((mstPropagate 0 wP wPts).normal (topIndex wPts)) ∧
    (∀ j, j < wPts.length →
      zCoord ((wPts.getD j default).pos) ≤ zCoord ((wPts.getD (topIndex wPts) default).pos)) :=
  seed_normal_never_modified 0 wP wPts (by simp [wPts]) wPts_valid

theorem partitionDeques_eq (recs : List (EnrichedPoint × Bool)) :
    partitionDeques recs =
      ((recs.filter (fun r => r.2)).map (fun r => r.1),
       (recs.filter (fun r => !r.2)).map (fun r => r.1)) := by
  unfold partitionDeques
  suffices H : ∀ acc : List EnrichedPoint × List EnrichedPoint,
      recs.foldl
        (fun acc r => if r.2 then (acc.1 ++ [r.1], acc.2) else (acc.1, acc.2 ++ [r.1])) acc =
        (acc.1 ++ (recs.filter (fun r => r.2)).map (fun r => r.1),
         acc.2 ++ (recs.filter (fun r => !r.2)).map (fun r => r.1)) by
    simpa using H ([], [])
  induction recs with
  | nil =>
    intro acc
    simp
  | cons r rs ih =>
    intro acc
    rw [List.foldl_cons]
    by_cases h : r.2 = true
    · rw [if_pos h, ih]
      simp [List.filter_cons, h, List.append_assoc]
    · rw [if_neg h, ih]
      simp [List.filter_cons, h, List.append_assoc]

/-- Claim C9: the output range is the records with `is_oriented = true`
in their original relative order followed by those with
`is_oriented = false` in their original relative order, and the returned
boundary offset is the length of the oriented prefix (the position of the
first unoriented point). -/
theorem mst_orient_normals_stable_partition (gamma : ℚ) (p : Nat → Nat)
    (pts : List EnrichedPoint) (hne : pts ≠ []) :
    (mst_orient_normals gamma p pts).1 =
      ((finalRecords gamma p pts).filter (fun r => r.2)).map (fun r => r.1) ++
        ((finalRecords gamma p pts).filter (fun r => !r.2)).map (fun r => r.1) ∧
    (mst_orient_normals gamma p pts).2 =
      ((finalRecords gamma p pts).filter (fun r => r.2)).length := by
  unfold mst_orient_normals
  rw [partitionDeques_eq]
  exact ⟨rfl, by simp⟩

/-- Claim C9, witness: the stable-partition shape instantiated on the
two-point instance. -/
theorem mst_orient_normals_stable_partition_witness :
    (mst_orient_normals 0 wP wPts).1 =
      ((finalRecords 0 wP wPts).filter (fun r => r.2)).map (fun r => r.1) ++
        ((finalRecords 0 wP wPts).filter (fun r => !r.2)).map (fun r => r.1) ∧
    (mst_orient_normals 0 wP wPts).2 =
      ((finalRecords 0 wP wPts).filter (fun r => r.2)).length :=
  mst_orient_normals_stable_partition 0 wP wPts (by simp [wPts])

end CGALSpec
